import Mathlib

/-!
Verification development for the probnmn-clevr core: the elementary neural
modules (`probnmn/modules/nmn_modules.py`) and the program prior language
model (`probnmn/models/program_prior.py`).

Tensors of floating-point numbers are modelled as tensors of rationals
(exact arithmetic); fallible tensor operations (shape mismatches, index
out of bounds) return `Option`.  Transcendental scalar functions of the
underlying tensor library (sigmoid, exp, log, 2**x) have no exact rational
counterpart; they are taken as explicit function parameters, constrained
only by the algebraic properties the statements need, or modelled exactly
at the rational points where the true function is rational.
-/

namespace Probnmn

/-- Finite sum of `f 0 + f 1 + ... + f (n-1)`, used for dot products and
convolution sums. -/
def sumR (n : ℕ) (f : ℕ → ℚ) : ℚ :=
  match n with
  | 0 => 0
  | m + 1 => sumR m f + f m

theorem sumR_congr {n : ℕ} {f g : ℕ → ℚ} (h : ∀ i, i < n → f i = g i) :
    sumR n f = sumR n g := by
  induction n with
  | zero => rfl
  | succ m ih =>
    simp only [sumR]
    rw [ih (fun i hi => h i (Nat.lt_succ_of_lt hi)), h m (Nat.lt_succ_self m)]

theorem sumR_nonneg {n : ℕ} {f : ℕ → ℚ} (h : ∀ i, i < n → 0 ≤ f i) :
    0 ≤ sumR n f := by
  induction n with
  | zero => simp [sumR]
  | succ m ih =>
    simp only [sumR]
    have h1 := ih (fun i hi => h i (Nat.lt_succ_of_lt hi))
    have h2 := h m (Nat.lt_succ_self m)
    linarith

theorem sumR_pos {n : ℕ} {f : ℕ → ℚ} (hn : 0 < n) (h : ∀ i, i < n → 0 < f i) :
    0 < sumR n f := by
  cases n with
  | zero => exact absurd hn (lt_irrefl 0)
  | succ m =>
    simp only [sumR]
    have h1 : 0 ≤ sumR m f :=
      sumR_nonneg (fun i hi => le_of_lt (h i (Nat.lt_succ_of_lt hi)))
    have h2 := h m (Nat.lt_succ_self m)
    linarith

theorem le_sumR {n v : ℕ} {f : ℕ → ℚ} (hv : v < n) (h : ∀ i, i < n → 0 ≤ f i) :
    f v ≤ sumR n f := by
  induction n with
  | zero => exact absurd hv (Nat.not_lt_zero v)
  | succ m ih =>
    simp only [sumR]
    rcases Nat.lt_succ_iff_lt_or_eq.mp hv with hlt | heq
    · have h1 := ih hlt (fun i hi => h i (Nat.lt_succ_of_lt hi))
      have h2 := h m (Nat.lt_succ_self m)
      linarith
    · subst heq
      have h1 : 0 ≤ sumR v f :=
        sumR_nonneg (fun i hi => h i (Nat.lt_succ_of_lt hi))
      linarith

/-- A 4-D tensor (batch, channels, height, width).  The payload is a total
function; only indices below the dimensions are meaningful. -/
structure Ten4 (α : Type) where
  b : ℕ
  c : ℕ
  h : ℕ
  w : ℕ
  data : ℕ → ℕ → ℕ → ℕ → α

/-- A 2-D tensor (rows, cols). -/
structure Ten2 (α : Type) where
  rows : ℕ
  cols : ℕ
  data : ℕ → ℕ → α

/-- Two 4-D tensors have the same shape. -/
def sameDims4 {α : Type} (x y : Ten4 α) : Prop :=
  x.b = y.b ∧ x.c = y.c ∧ x.h = y.h ∧ x.w = y.w

instance {α : Type} (x y : Ten4 α) : Decidable (sameDims4 x y) := by
  unfold sameDims4; infer_instance

/-- Two 4-D tensors of the same shape whose batch slice `i` carries the same
data (everywhere at batch index `i`). -/
def agreeAt {α : Type} (i : ℕ) (x y : Ten4 α) : Prop :=
  sameDims4 x y ∧ ∀ c h w, x.data i c h w = y.data i c h w

/-- Lifting of `agreeAt` to fallible results: both fail, or both succeed with
agreeing batch slice `i`. -/
def optAgreeAt {α : Type} (i : ℕ) : Option (Ten4 α) → Option (Ten4 α) → Prop
  | none, none => True
  | some x, some y => agreeAt i x y
  | _, _ => False

/-- Agreement of 2-D tensors on row `i`. -/
def agreeAt2 {α : Type} (i : ℕ) (x y : Ten2 α) : Prop :=
  x.rows = y.rows ∧ x.cols = y.cols ∧ ∀ j, x.data i j = y.data i j

/-! ### Elementary tensor operations (torch semantics)

These translate the tensor-substrate operations the modules invoke:
broadcasting elementwise arithmetic, `repeat`, `Conv2d` (stride 1),
`max_pool2d` with `return_indices=True`, `index_select`, `cat` and `view`.
-/

/-- Two dimension sizes are broadcast-compatible (equal, or one of them 1). -/
def bcompat (a b : ℕ) : Prop := a = b ∨ a = 1 ∨ b = 1

instance (a b : ℕ) : Decidable (bcompat a b) := by
  unfold bcompat; infer_instance

/-- Result size of broadcasting two compatible dimension sizes. -/
def bdim (a b : ℕ) : ℕ := max a b

/-- Index used to read a possibly-broadcast dimension of size `d`. -/
def bidx (d i : ℕ) : ℕ := if d = 1 then 0 else i

/-- Broadcasting binary elementwise operation on 4-D tensors, as used by
`torch.min`, `torch.max` and `torch.mul`; fails when shapes are not
broadcast-compatible. -/
def ewise (f : ℚ → ℚ → ℚ) (x y : Ten4 ℚ) : Option (Ten4 ℚ) :=
  if bcompat x.b y.b ∧ bcompat x.c y.c ∧ bcompat x.h y.h ∧ bcompat x.w y.w then
    some ⟨bdim x.b y.b, bdim x.c y.c, bdim x.h y.h, bdim x.w y.w,
      fun b c i j => f (x.data (bidx x.b b) (bidx x.c c) (bidx x.h i) (bidx x.w j))
                       (y.data (bidx y.b b) (bidx y.c c) (bidx y.h i) (bidx y.w j))⟩
  else none

/-- Elementwise minimum, `torch.min(a, b)`. -/
def tmin (x y : Ten4 ℚ) : Option (Ten4 ℚ) := ewise min x y

/-- Elementwise maximum, `torch.max(a, b)`. -/
def tmax (x y : Ten4 ℚ) : Option (Ten4 ℚ) := ewise max x y

/-- Elementwise product, `torch.mul(a, b)`. -/
def tmul (x y : Ten4 ℚ) : Option (Ten4 ℚ) := ewise (· * ·) x y

/-- Tiling along each dimension, `x.repeat(rb, rc, rh, rw)`. -/
def trepeat {α : Type} (x : Ten4 α) (rb rc rh rw : ℕ) : Ten4 α :=
  ⟨x.b * rb, x.c * rc, x.h * rh, x.w * rw,
    fun b c i j => x.data (b % x.b) (c % x.c) (i % x.h) (j % x.w)⟩

/-- Pointwise application of a scalar function (activations such as relu
and sigmoid act elementwise). -/
def pointwise (f : ℚ → ℚ) (x : Ten4 ℚ) : Ten4 ℚ :=
  ⟨x.b, x.c, x.h, x.w, fun b c i j => f (x.data b c i j)⟩

/-- Elementwise rectified linear unit, `F.relu`. -/
def reluT (x : Ten4 ℚ) : Ten4 ℚ := pointwise (fun q => max q 0) x

/-- Concatenation along the channel dimension, `torch.cat([x, y], dim=1)`;
fails unless the remaining dimensions agree. -/
def cat1 {α : Type} (x y : Ten4 α) : Option (Ten4 α) :=
  if x.b = y.b ∧ x.h = y.h ∧ x.w = y.w then
    some ⟨x.b, x.c + y.c, x.h, x.w,
      fun b c i j => if c < x.c then x.data b c i j else y.data b (c - x.c) i j⟩
  else none

/-- Selection of a single index along the height dimension,
`x.index_select(2, i)` with a scalar index; fails when out of bounds. -/
def indexSelect2 {α : Type} (x : Ten4 α) (i : ℕ) : Option (Ten4 α) :=
  if i < x.h then some ⟨x.b, x.c, 1, x.w, fun b c _ j => x.data b c i j⟩ else none

/-- Selection of a single index along the width dimension,
`x.index_select(3, j)` with a scalar index; fails when out of bounds. -/
def indexSelect3 {α : Type} (x : Ten4 α) (j : ℕ) : Option (Ten4 α) :=
  if j < x.w then some ⟨x.b, x.c, x.h, 1, fun b c i _ => x.data b c i j⟩ else none

/-- Parameters of a `nn.Conv2d(inC, outC, kernel_size=k, padding=pad,
dilation=dil)` layer (stride 1, square kernel). -/
structure Conv2dP where
  inC : ℕ
  outC : ℕ
  k : ℕ
  pad : ℕ
  dil : ℕ
  weight : ℕ → ℕ → ℕ → ℕ → ℚ
  bias : ℕ → ℚ

/-- Output spatial size of a stride-1 convolution; fails when the effective
kernel exceeds the padded input. -/
def convOutDim (n k pad dil : ℕ) : Option ℕ :=
  if dil * (k - 1) + 1 ≤ n + 2 * pad then some (n + 2 * pad - (dil * (k - 1) + 1) + 1)
  else none

/-- Read of a zero-padded input: coordinate `hp` (resp. `wp`) is the padded
row (resp. column), shifted by `pad`. -/
def padRead (x : Ten4 ℚ) (b c hp wp pad : ℕ) : ℚ :=
  if pad ≤ hp ∧ hp - pad < x.h ∧ pad ≤ wp ∧ wp - pad < x.w then
    x.data b c (hp - pad) (wp - pad)
  else 0

/-- Application of a 2-D convolution layer; fails when the channel counts
mismatch or the kernel does not fit. -/
def conv2d (p : Conv2dP) (x : Ten4 ℚ) : Option (Ten4 ℚ) :=
  (convOutDim x.h p.k p.pad p.dil).bind fun oh =>
  (convOutDim x.w p.k p.pad p.dil).bind fun ow =>
  if x.c = p.inC then
    some ⟨x.b, p.outC, oh, ow, fun b o i j =>
      p.bias o + sumR p.inC (fun ci => sumR p.k (fun kh => sumR p.k (fun kw =>
        p.weight o ci kh kw * padRead x b ci (i + kh * p.dil) (j + kw * p.dil) p.pad)))⟩
  else none

/-- One step of a running first-maximum argmax: keep the current best index
unless the candidate is strictly larger (torch keeps the first maximum). -/
def argmaxStep (f : ℕ → ℚ) (best cur : ℕ) : ℕ :=
  if f best < f cur then cur else best

/-- First-maximum argmax over a list of candidate indices, starting from a
given index. -/
def argmaxFrom (f : ℕ → ℚ) (l : List ℕ) (s : ℕ) : ℕ :=
  l.foldl (argmaxStep f) s

/-- Flattened input indices (row-major, relative to input width `W`) of the
pooling window at output position `(oh, ow)` for kernel and stride `k`. -/
def windowIdx (W k oh ow : ℕ) : List ℕ :=
  (List.range k).flatMap (fun r => (List.range k).map (fun c => (oh * k + r) * W + (ow * k + c)))

/-- First-maximum argmax of a pooling window, as a flattened input index. -/
def windowArgmax (x : Ten4 ℚ) (k b c oh ow : ℕ) : ℕ :=
  match windowIdx x.w k oh ow with
  | [] => 0
  | q :: rest => argmaxFrom (fun q2 => x.data b c (q2 / x.w) (q2 % x.w)) rest q

/-- Max pooling with `return_indices=True`: `F.max_pool2d(x, k,
return_indices=True)` (stride defaults to the kernel size, no padding).
Returns the pooled values and the flattened input index of the first
maximum of each window; fails when the kernel does not fit. -/
def maxPool2dIdx (x : Ten4 ℚ) (k : ℕ) : Option (Ten4 ℚ × Ten4 ℕ) :=
  if 0 < k ∧ k ≤ x.h ∧ k ≤ x.w then
    some (⟨x.b, x.c, (x.h - k) / k + 1, (x.w - k) / k + 1, fun b c i j =>
            x.data b c (windowArgmax x k b c i j / x.w) (windowArgmax x k b c i j % x.w)⟩,
          ⟨x.b, x.c, (x.h - k) / k + 1, (x.w - k) / k + 1, fun b c i j =>
            windowArgmax x k b c i j⟩)
  else none

/-! ### Elementary modules (`probnmn/modules/nmn_modules.py`)

Each module's trainable parameters are the fields of its structure; the
sigmoid activation is a function parameter `σ` of each forward that ends in
`torch.sigmoid` (sigmoid is a transcendental pointwise function with no
exact rational counterpart).
-/

/-- Forward of `AndModule`: `torch.min(attn1, attn2)`. -/
def AndModule.forward (attn1 attn2 : Ten4 ℚ) : Option (Ten4 ℚ) :=
  tmin attn1 attn2

/-- Forward of `OrModule`: `torch.max(attn1, attn2)`. -/
def OrModule.forward (attn1 attn2 : Ten4 ℚ) : Option (Ten4 ℚ) :=
  tmax attn1 attn2

/-- Parameters of `AttentionModule`: three convolution layers and the
channel count `dim`. -/
structure AttentionModule where
  dim : ℕ
  conv1 : Conv2dP
  conv2 : Conv2dP
  conv3 : Conv2dP

/-- Forward of `AttentionModule`: attend by multiplication with the
channel-tiled attention, two relu convolutions, then a sigmoid-collapsed
1-channel convolution. -/
def AttentionModule.forward (σ : ℚ → ℚ) (m : AttentionModule) (feats attn : Ten4 ℚ) :
    Option (Ten4 ℚ) := do
  let attended ← tmul feats (trepeat attn 1 m.dim 1 1)
  let o1 ← conv2d m.conv1 attended
  let o2 ← conv2d m.conv2 (reluT o1)
  let o3 ← conv2d m.conv3 (reluT o2)
  pure (pointwise σ o3)

/-- Parameters of `QueryModule`: two convolution layers and the channel
count `dim`. -/
structure QueryModule where
  dim : ℕ
  conv1 : Conv2dP
  conv2 : Conv2dP

/-- Forward of `QueryModule`: attend by multiplication with the
channel-tiled attention, then two relu convolutions. -/
def QueryModule.forward (m : QueryModule) (feats attn : Ten4 ℚ) : Option (Ten4 ℚ) := do
  let attended ← tmul feats (trepeat attn 1 m.dim 1 1)
  let o1 ← conv2d m.conv1 attended
  let o2 ← conv2d m.conv2 (reluT o1)
  pure (reluT o2)

/-- Parameters of `RelateModule`: six convolution layers (increasing
dilation) and the channel count `dim`. -/
structure RelateModule where
  dim : ℕ
  conv1 : Conv2dP
  conv2 : Conv2dP
  conv3 : Conv2dP
  conv4 : Conv2dP
  conv5 : Conv2dP
  conv6 : Conv2dP

/-- Forward of `RelateModule`: attend by multiplication with the
channel-tiled attention, five relu convolutions, then a sigmoid-collapsed
1-channel convolution. -/
def RelateModule.forward (σ : ℚ → ℚ) (m : RelateModule) (feats attn : Ten4 ℚ) :
    Option (Ten4 ℚ) := do
  let attended ← tmul feats (trepeat attn 1 m.dim 1 1)
  let o1 ← conv2d m.conv1 attended
  let o2 ← conv2d m.conv2 (reluT o1)
  let o3 ← conv2d m.conv3 (reluT o2)
  let o4 ← conv2d m.conv4 (reluT o3)
  let o5 ← conv2d m.conv5 (reluT o4)
  let o6 ← conv2d m.conv6 (reluT o5)
  pure (pointwise σ o6)

/-- Parameters of `SameModule`: one 1x1 convolution over `dim + 1` channels
and the channel count `dim`. -/
structure SameModule where
  dim : ℕ
  conv : Conv2dP

/-- Reference-feature extraction of `SameModule.forward` (lines 201-204):
`size` is read from the height dimension of `attn`; `the_idx[0, 0, 0, 0]`
is the flattened argmax of batch element 0's first pooling window, decoded
as `(the_idx / size, the_idx % size)` and used to `index_select` the
feature map. -/
def SameModule.extractRef (feats attn : Ten4 ℚ) : Option (Ten4 ℚ) :=
  (maxPool2dIdx attn attn.h).bind fun mi =>
  (indexSelect2 feats (mi.2.data 0 0 0 0 / attn.h)).bind fun a1 =>
  indexSelect3 a1 (mi.2.data 0 0 0 0 % attn.h)

/-- Forward of `SameModule`: extract the reference feature vector, tile it
over `size x size` spatial positions, multiply with the feature map,
concatenate the attention as an extra channel, then a sigmoid-collapsed
1-channel convolution. -/
def SameModule.forward (σ : ℚ → ℚ) (m : SameModule) (feats attn : Ten4 ℚ) :
    Option (Ten4 ℚ) :=
  (SameModule.extractRef feats attn).bind fun af =>
  (tmul feats (trepeat af 1 1 attn.h attn.h)).bind fun x =>
  (cat1 x attn).bind fun x2 =>
  (conv2d m.conv x2).bind fun o =>
  some (pointwise σ o)

/-- Parameters of `ComparisonModule`: a 1x1 projection halving the channel
count and two convolution layers. -/
structure ComparisonModule where
  dim : ℕ
  projection : Conv2dP
  conv1 : Conv2dP
  conv2 : Conv2dP

/-- Forward of `ComparisonModule`: concatenate along channels, relu 1x1
projection back to `dim` channels, then two relu convolutions. -/
def ComparisonModule.forward (m : ComparisonModule) (in1 in2 : Ten4 ℚ) :
    Option (Ten4 ℚ) := do
  let cc ← cat1 in1 in2
  let o0 ← conv2d m.projection cc
  let o1 ← conv2d m.conv1 (reluT o0)
  let o2 ← conv2d m.conv2 (reluT o1)
  pure (reluT o2)

/-- Forward of `Flatten`: `x.view(x.size(0), -1)`, collapsing all non-batch
dimensions (row-major). -/
def Flatten.forward {α : Type} (x : Ten4 α) : Ten2 α :=
  ⟨x.b, x.c * x.h * x.w,
    fun b i => x.data b (i / (x.h * x.w)) (i % (x.h * x.w) / x.w) (i % (x.h * x.w) % x.w)⟩

/-! ### Construction-time initialization of the modules

The `__init__` bodies apply initializers to parameter tensors.  Random
draws are modelled at the level of which initialization scheme each tensor
receives: `nn.Conv2d` construction gives the weight torch's default
`kaiming_uniform_(a=sqrt 5)` and the bias the default
`uniform(-1/sqrt fan_in, 1/sqrt fan_in)`; an explicit
`torch.nn.init.kaiming_normal_(w)` call replaces the weight's scheme.
-/

/-- The initialization scheme applied to a parameter tensor. -/
inductive InitScheme where
  | kaimingNormal (fanIn : ℕ)
  | kaimingUniform (fanIn : ℕ)
  | uniformBound (fanIn : ℕ)
  | zeroInit
  deriving DecidableEq

/-- Whether a scheme scales by the fan-in (kaiming / variance scaling). -/
def InitScheme.fanInAware : InitScheme → Bool
  | kaimingNormal _ => true
  | kaimingUniform _ => true
  | _ => false

/-- Initialization record of one `nn.Conv2d(inC, outC, kernel_size=k,
padding=pad, dilation=dil)` layer. -/
structure Conv2dInit where
  inC : ℕ
  outC : ℕ
  k : ℕ
  pad : ℕ
  dil : ℕ
  weightInit : InitScheme
  biasInit : InitScheme
  deriving DecidableEq

/-- Construction of an `nn.Conv2d` layer: torch's default initialization
(fan_in = inC * k * k). -/
def mkConv2d (inC outC k pad dil : ℕ) : Conv2dInit :=
  ⟨inC, outC, k, pad, dil,
    InitScheme.kaimingUniform (inC * k * k), InitScheme.uniformBound (inC * k * k)⟩

/-- Effect of `torch.nn.init.kaiming_normal_(conv.weight)`: only the weight
scheme changes. -/
def kaimingNormalW (c : Conv2dInit) : Conv2dInit :=
  { c with weightInit := InitScheme.kaimingNormal (c.inC * c.k * c.k) }

/-- Convolution layers of `AttentionModule.__init__` after its body ran. -/
def AttentionModule.initConvs (dim : ℕ) : List Conv2dInit :=
  [kaimingNormalW (mkConv2d dim dim 3 1 1),
   kaimingNormalW (mkConv2d dim dim 3 1 1),
   kaimingNormalW (mkConv2d dim 1 1 0 1)]

/-- Convolution layers of `QueryModule.__init__` after its body ran. -/
def QueryModule.initConvs (dim : ℕ) : List Conv2dInit :=
  [kaimingNormalW (mkConv2d dim dim 3 1 1),
   kaimingNormalW (mkConv2d dim dim 3 1 1)]

/-- Convolution layers of `RelateModule.__init__` after its body ran. -/
def RelateModule.initConvs (dim : ℕ) : List Conv2dInit :=
  [kaimingNormalW (mkConv2d dim dim 3 1 1),
   kaimingNormalW (mkConv2d dim dim 3 2 2),
   kaimingNormalW (mkConv2d dim dim 3 4 4),
   kaimingNormalW (mkConv2d dim dim 3 8 8),
   kaimingNormalW (mkConv2d dim dim 3 1 1),
   kaimingNormalW (mkConv2d dim 1 1 0 1)]

/-- Convolution layers of `SameModule.__init__` after its body ran. -/
def SameModule.initConvs (dim : ℕ) : List Conv2dInit :=
  [kaimingNormalW (mkConv2d (dim + 1) 1 1 0 1)]

/-- Convolution layers of `ComparisonModule.__init__` after its body ran:
only `conv1` and `conv2` receive `kaiming_normal_`; `projection` keeps the
default initialization. -/
def ComparisonModule.initConvs (dim : ℕ) : List Conv2dInit :=
  [mkConv2d (2 * dim) dim 1 0 1,
   kaimingNormalW (mkConv2d dim dim 3 1 1),
   kaimingNormalW (mkConv2d dim dim 3 1 1)]

/-! ### Program prior (`probnmn/models/program_prior.py`)

The model's weight tensors live in a heap of numbered slots so python
tensor aliasing (weight tying) is observable; the LSTM encoder, the
sampler of `torch.multinomial`, and the transcendental scalars exp / log
of softmax are function parameters of the forward.
-/

/-- Models the external allennlp `training.metrics.Average`: a running total
and count of accumulated values. -/
structure AvgState where
  total : ℚ
  count : ℕ
  deriving DecidableEq

/-- Accumulate one value (allennlp `Average.__call__`). -/
def AvgState.record (a : AvgState) (v : ℚ) : AvgState :=
  ⟨a.total + v, a.count + 1⟩

/-- Models the external allennlp `Average.get_metric(reset)`: the current
average (or 0 when no values have been accumulated), resetting the
accumulator when `reset` is true. -/
def AvgState.getMetric (a : AvgState) (reset : Bool) : ℚ × AvgState :=
  (if 0 < a.count then a.total / (a.count : ℚ) else 0,
   if reset then ⟨0, 0⟩ else a)

/-- Exact rational model of the Python float operation `2 ** x`: agrees
with the true function at every exponent where the true value is rational
(the integers); elsewhere, where the true value is irrational and has no
rational counterpart, it returns 0. -/
def pow2model (q : ℚ) : ℚ :=
  if q.den = 1 then (2 : ℚ) ^ q.num else 0

/-- State of a constructed `ProgramPrior`: vocabulary data, the tensor
heap with the references held by the embedder and the output layer, the
projection weight, and the perplexity accumulator. -/
structure PriorState where
  vocabSize : ℕ
  inputSize : ℕ
  hiddenSize : ℕ
  startIndex : ℕ
  endIndex : ℕ
  padIndex : ℕ
  unkIndex : ℕ
  heap : ℕ → ℕ → ℕ → ℚ
  embedRef : ℕ
  outRef : ℕ
  projW : ℕ → ℕ → ℚ
  acc : AvgState

/-- Construction of `ProgramPrior.__init__`: slot 0 of the heap holds the
embedding weight of `Embedding(vocab_size, input_size)`, slot 1 the fresh
weight of `nn.Linear(input_size, vocab_size, bias=False)`; the assignment
`self._output_layer.weight = embedder_inner.weight` then redirects the
output layer's reference to the embedding slot.  The initial values of the
randomly-initialized weights are arguments. -/
def ProgramPrior.init (vocabSize inputSize hiddenSize : ℕ)
    (startIndex endIndex padIndex unkIndex : ℕ)
    (embedW0 outW0 projW0 : ℕ → ℕ → ℚ) : PriorState :=
  let s0 : PriorState :=
    { vocabSize := vocabSize, inputSize := inputSize, hiddenSize := hiddenSize,
      startIndex := startIndex, endIndex := endIndex,
      padIndex := padIndex, unkIndex := unkIndex,
      heap := fun r => if r = 0 then embedW0 else if r = 1 then outW0 else fun _ _ => 0,
      embedRef := 0, outRef := 1, projW := projW0, acc := ⟨0, 0⟩ }
  { s0 with outRef := s0.embedRef }

/-- In-place write of one entry of the tensor in heap slot `ref`. -/
def writeW (s : PriorState) (ref r c : ℕ) (v : ℚ) : PriorState :=
  { s with heap := fun ref2 =>
      if ref2 = ref then fun r2 c2 => if r2 = r ∧ c2 = c then v else s.heap ref2 r2 c2
      else s.heap ref2 }

/-- Read of one entry of the tensor in heap slot `ref`. -/
def readW (s : PriorState) (ref r c : ℕ) : ℚ :=
  s.heap ref r c

/-- Sum of `f 0 + ... + f (n-1)` over the naturals (entry counting). -/
def countR (n : ℕ) (f : ℕ → ℕ) : ℕ :=
  match n with
  | 0 => 0
  | m + 1 => countR m f + f m

/-- Number of non-`pad` entries of row `b`: the real-token length used by
the boundary insertion. -/
def rowLen (t : Ten2 ℕ) (pad b : ℕ) : ℕ :=
  countR t.cols (fun j => if t.data b j = pad then 0 else 1)

/-- Models the external allennlp `add_sentence_boundary_token_ids` on a 2-D
token tensor (the spec's boundary insertion, respecting per-row real
lengths): two more columns; column 0 becomes `start`, columns 1..cols shift
the input right, column `len + 1` (len = non-pad count of the row, from the
mask `tokens != pad`) is overwritten with `stop`, remaining cells keep the
fill value 0. -/
def addBoundary (t : Ten2 ℕ) (pad start stop : ℕ) : Ten2 ℕ :=
  ⟨t.rows, t.cols + 2, fun b j =>
    if j = rowLen t pad b + 1 then stop
    else if j = 0 then start
    else if j ≤ t.cols then t.data b (j - 1) else 0⟩

/-- The non-model functions of `ProgramPrior.forward`: the LSTM encoder
(arbitrary trained weights), the transcendental scalars exp and log used
by softmax / log-softmax, and the random choice made by
`torch.multinomial` (given batch index, time step and the weight row, the
sampled vocabulary index). -/
structure PriorOracle where
  enc : (ℕ → ℕ → ℕ → ℚ) → (ℕ → ℕ → ℚ) → ℕ → ℕ → ℕ → ℚ
  exp : ℚ → ℚ
  log : ℚ → ℚ
  sampler : ℕ → ℕ → (ℕ → ℚ) → ℕ

/-- Boundary-augmented program tokens (forward lines 87-89). -/
def priorTokens (s : PriorState) (tokens : Ten2 ℕ) : Ten2 ℕ :=
  addBoundary tokens s.padIndex s.startIndex s.endIndex

/-- Padding mask recomputed on the augmented tokens (line 90). -/
def priorMask (s : PriorState) (tokens : Ten2 ℕ) : Ten2 ℕ :=
  let t := priorTokens s tokens
  ⟨t.rows, t.cols, fun b j => if t.data b j = s.padIndex then 0 else 1⟩

/-- Per-step vocabulary logits (lines 94-103): embed the augmented tokens
with the embedding table, encode, apply the projection layer, then the
tied output layer (the output weight is read through `outRef`). -/
def priorLogits (s : PriorState) (o : PriorOracle) (tokens : Ten2 ℕ) : ℕ → ℕ → ℕ → ℚ :=
  let t := priorTokens s tokens
  let emb : ℕ → ℕ → ℕ → ℚ := fun b j k => s.heap s.embedRef (t.data b j) k
  let encd := o.enc emb (fun b j => ((priorMask s tokens).data b j : ℚ))
  let proj : ℕ → ℕ → ℕ → ℚ :=
    fun b j k => sumR s.hiddenSize (fun h2 => s.projW k h2 * encd b j h2)
  fun b j v => sumR s.inputSize (fun k => s.heap s.outRef v k * proj b j k)

/-- Softmax of one logit row over vocabulary size `V`. -/
def softmaxRow (exp : ℚ → ℚ) (V : ℕ) (row : ℕ → ℚ) (v : ℕ) : ℚ :=
  exp (row v) / sumR V (fun v2 => exp (row v2))

/-- Log-softmax of one logit row (used by the loss). -/
def logSoftmaxRow (exp log : ℚ → ℚ) (V : ℕ) (row : ℕ → ℚ) (v : ℕ) : ℚ :=
  log (softmaxRow exp V row v)

/-- Per-step class probabilities `F.softmax(output_logits, dim=-1)`
(line 105). -/
def priorProbs (s : PriorState) (o : PriorOracle) (tokens : Ten2 ℕ) : ℕ → ℕ → ℕ → ℚ :=
  fun b j => softmaxRow o.exp s.vocabSize (priorLogits s o tokens b j)

/-- Sampling distribution after the masking step (lines 107-109): the
entries at the start, padding and unknown indices are set to 0. -/
def priorMaskedProbs (s : PriorState) (o : PriorOracle) (tokens : Ten2 ℕ) :
    ℕ → ℕ → ℕ → ℚ :=
  fun b j v =>
    if v = s.startIndex ∨ v = s.padIndex ∨ v = s.unkIndex then 0
    else priorProbs s o tokens b j v

/-- Per-step samples: `torch.multinomial` over each row of the masked
probabilities (lines 111-118). -/
def priorSamples (s : PriorState) (o : PriorOracle) (tokens : Ten2 ℕ) : ℕ → ℕ → ℕ :=
  fun b j => o.sampler b j (priorMaskedProbs s o tokens b j)

/-- Predicted next-token sequences: the stacked samples, dropping the last
step and multiplying with the shifted mask (lines 121-124).  Shape:
(batch, input columns + 1). -/
def priorPredictions (s : PriorState) (o : PriorOracle) (tokens : Ten2 ℕ) : Ten2 ℕ :=
  ⟨tokens.rows, tokens.cols + 1,
    fun b j => priorSamples s o tokens b j * (priorMask s tokens).data b (j + 1)⟩

/-- Per-sequence loss (lines 127-132), following the external allennlp
`sequence_cross_entropy_with_logits(..., average=None)`: the weighted sum
of the negative log-softmax at the next-step targets, divided by the
weight sum plus 1e-13. -/
def priorLoss (s : PriorState) (o : PriorOracle) (tokens : Ten2 ℕ) : ℕ → ℚ :=
  fun b =>
    let t := priorTokens s tokens
    let mrow : ℕ → ℚ := fun j => ((priorMask s tokens).data b (j + 1) : ℚ)
    let steps := tokens.cols + 1
    sumR steps (fun j =>
      mrow j * (- logSoftmaxRow o.exp o.log s.vocabSize (priorLogits s o tokens b j)
                    (t.data b (j + 1))))
    / (sumR steps mrow + 1 / 10 ^ 13)

/-- A 1-D tensor of rationals (the per-sequence loss vector). -/
structure Vec1 where
  len : ℕ
  data : ℕ → ℚ

/-- Forward of `ProgramPrior` (lines 63-136): returns the predictions and
the per-sequence loss, and, in evaluation mode only, accumulates the
batch-mean loss into the perplexity accumulator. -/
def ProgramPrior.forward (s : PriorState) (o : PriorOracle) (training : Bool)
    (tokens : Ten2 ℕ) : (Ten2 ℕ × Vec1) × PriorState :=
  let predictions := priorPredictions s o tokens
  let loss : Vec1 := ⟨tokens.rows, priorLoss s o tokens⟩
  let meanLoss := sumR tokens.rows loss.data / (tokens.rows : ℚ)
  ((predictions, loss),
   if training then s else { s with acc := s.acc.record meanLoss })

/-- Models `ProgramPrior.get_metrics` (lines 138-142): reads the running
average with `reset=True` and reports perplexity `2 ** average` (the float
power modelled by `pow2model`). -/
def ProgramPrior.get_metrics (s : PriorState) : ℚ × PriorState :=
  let m := s.acc.getMetric true
  (pow2model m.1, { s with acc := m.2 })

/-! ### Batch-slice agreement lemmas for the elementary operations -/

theorem bidx_eq {d i : ℕ} (h : i < d) : bidx d i = i := by
  unfold bidx
  split <;> omega

theorem agreeAt_refl {α : Type} (i : ℕ) (x : Ten4 α) : agreeAt i x x :=
  ⟨⟨rfl, rfl, rfl, rfl⟩, fun _ _ _ => rfl⟩

theorem optAgreeAt_bind {α : Type} {i : ℕ} {o o' : Option (Ten4 α)}
    (h : optAgreeAt i o o') {g g' : Ten4 α → Option (Ten4 α)}
    (hg : ∀ z z', agreeAt i z z' → optAgreeAt i (g z) (g' z')) :
    optAgreeAt i (o.bind g) (o'.bind g') := by
  cases o <;> cases o'
  · trivial
  · exact h.elim
  · exact h.elim
  · exact hg _ _ h

theorem optAgreeAt_entry {i : ℕ} {o o' : Option (Ten4 ℚ)} (h : optAgreeAt i o o')
    (c hh ww : ℕ) :
    o.map (fun z => z.data i c hh ww) = o'.map (fun z => z.data i c hh ww) := by
  cases o <;> cases o' <;> simp only [Option.map] <;> first
    | rfl
    | exact absurd h not_false
    | exact congrArg some (h.2 c hh ww)

theorem ewise_optAgreeAt (f : ℚ → ℚ → ℚ) {i : ℕ} {x x' y y' : Ten4 ℚ}
    (hx : agreeAt i x x') (hy : agreeAt i y y') (hix : i < x.b) (hiy : i < y.b) :
    optAgreeAt i (ewise f x y) (ewise f x' y') := by
  obtain ⟨⟨hxb, hxc, hxh, hxw⟩, hxd⟩ := hx
  obtain ⟨⟨hyb, hyc, hyh, hyw⟩, hyd⟩ := hy
  unfold ewise
  rw [← hxb, ← hxc, ← hxh, ← hxw, ← hyb, ← hyc, ← hyh, ← hyw]
  split
  · refine ⟨⟨rfl, rfl, rfl, rfl⟩, fun c h w => ?_⟩
    simp only
    rw [bidx_eq hix, bidx_eq hiy, hxd, hyd]
  · trivial

theorem trepeat_agreeAt {α : Type} {i : ℕ} {x x' : Ten4 α} (h : agreeAt i x x')
    (hi : i < x.b) (rb rc rh rw : ℕ) :
    agreeAt i (trepeat x rb rc rh rw) (trepeat x' rb rc rh rw) := by
  obtain ⟨⟨hb, hc, hh, hw⟩, hd⟩ := h
  unfold trepeat
  rw [← hb, ← hc, ← hh, ← hw]
  exact ⟨⟨rfl, rfl, rfl, rfl⟩, fun c h w => by
    simp only
    rw [Nat.mod_eq_of_lt hi]
    exact hd _ _ _⟩

theorem pointwise_agreeAt (f : ℚ → ℚ) {i : ℕ} {x x' : Ten4 ℚ} (h : agreeAt i x x') :
    agreeAt i (pointwise f x) (pointwise f x') := by
  obtain ⟨⟨hb, hc, hh, hw⟩, hd⟩ := h
  exact ⟨⟨hb, hc, hh, hw⟩, fun c hh2 ww => congrArg f (hd c hh2 ww)⟩

theorem reluT_agreeAt {i : ℕ} {x x' : Ten4 ℚ} (h : agreeAt i x x') :
    agreeAt i (reluT x) (reluT x') :=
  pointwise_agreeAt _ h

theorem cat1_optAgreeAt {α : Type} {i : ℕ} {x x' y y' : Ten4 α}
    (hx : agreeAt i x x') (hy : agreeAt i y y') :
    optAgreeAt i (cat1 x y) (cat1 x' y') := by
  obtain ⟨⟨hxb, hxc, hxh, hxw⟩, hxd⟩ := hx
  obtain ⟨⟨hyb, hyc, hyh, hyw⟩, hyd⟩ := hy
  unfold cat1
  rw [← hxb, ← hxh, ← hxw, ← hyb, ← hyh, ← hyw]
  split
  · refine ⟨⟨rfl, by rw [hxc, hyc], rfl, rfl⟩, fun c h w => ?_⟩
    simp only
    rw [← hxc]
    split
    · exact hxd _ _ _
    · exact hyd _ _ _
  · trivial

theorem indexSelect2_optAgreeAt {α : Type} {i n : ℕ} {x x' : Ten4 α}
    (h : agreeAt i x x') :
    optAgreeAt i (indexSelect2 x n) (indexSelect2 x' n) := by
  obtain ⟨⟨hb, hc, hh, hw⟩, hd⟩ := h
  unfold indexSelect2
  rw [← hh]
  split
  · exact ⟨⟨hb, hc, rfl, hw⟩, fun c _ w => hd _ _ _⟩
  · trivial

theorem indexSelect3_optAgreeAt {α : Type} {i n : ℕ} {x x' : Ten4 α}
    (h : agreeAt i x x') :
    optAgreeAt i (indexSelect3 x n) (indexSelect3 x' n) := by
  obtain ⟨⟨hb, hc, hh, hw⟩, hd⟩ := h
  unfold indexSelect3
  rw [← hw]
  split
  · exact ⟨⟨hb, hc, hh, rfl⟩, fun c h2 _ => hd _ _ _⟩
  · trivial

theorem padRead_congr {i : ℕ} {x x' : Ten4 ℚ} (hh : x.h = x'.h) (hw : x.w = x'.w)
    (hd : ∀ c h w, x.data i c h w = x'.data i c h w) (c hp wp pad : ℕ) :
    padRead x i c hp wp pad = padRead x' i c hp wp pad := by
  unfold padRead
  rw [← hh, ← hw]
  split
  · exact hd _ _ _
  · rfl

theorem conv2d_optAgreeAt (p : Conv2dP) {i : ℕ} {x x' : Ten4 ℚ} (h : agreeAt i x x') :
    optAgreeAt i (conv2d p x) (conv2d p x') := by
  obtain ⟨⟨hb, hc, hh, hw⟩, hd⟩ := h
  unfold conv2d
  rw [← hh, ← hw, ← hc]
  cases convOutDim x.h p.k p.pad p.dil
  · trivial
  cases convOutDim x.w p.k p.pad p.dil
  · trivial
  simp only [Option.bind]
  split
  · refine ⟨⟨hb, rfl, rfl, rfl⟩, fun o hh2 ww => ?_⟩
    simp only
    refine congrArg (p.bias o + ·) (sumR_congr fun ci _ => sumR_congr fun kh _ =>
      sumR_congr fun kw _ => ?_)
    exact congrArg _ (padRead_congr hh hw hd _ _ _ _)
  · trivial

theorem tmin_optAgreeAt {i : ℕ} {x x' y y' : Ten4 ℚ}
    (hx : agreeAt i x x') (hy : agreeAt i y y') (hix : i < x.b) (hiy : i < y.b) :
    optAgreeAt i (tmin x y) (tmin x' y') :=
  ewise_optAgreeAt _ hx hy hix hiy

theorem tmax_optAgreeAt {i : ℕ} {x x' y y' : Ten4 ℚ}
    (hx : agreeAt i x x') (hy : agreeAt i y y') (hix : i < x.b) (hiy : i < y.b) :
    optAgreeAt i (tmax x y) (tmax x' y') :=
  ewise_optAgreeAt _ hx hy hix hiy

theorem tmul_optAgreeAt {i : ℕ} {x x' y y' : Ten4 ℚ}
    (hx : agreeAt i x x') (hy : agreeAt i y y') (hix : i < x.b) (hiy : i < y.b) :
    optAgreeAt i (tmul x y) (tmul x' y') :=
  ewise_optAgreeAt _ hx hy hix hiy

theorem optAgreeAt_bind2 {α : Type} {i : ℕ} {o o' : Option (Ten4 α)}
    (h : optAgreeAt i o o') {g g' : Ten4 α → Option (Ten4 α)}
    (hg : ∀ z z', agreeAt i z z' → o = some z → o' = some z' →
      optAgreeAt i (g z) (g' z')) :
    optAgreeAt i (o.bind g) (o'.bind g') := by
  cases o <;> cases o'
  · trivial
  · exact h.elim
  · exact h.elim
  · exact hg _ _ h rfl rfl

theorem attention_forward_agreeAt (σ : ℚ → ℚ) (m : AttentionModule) {i : ℕ}
    {f f' a a' : Ten4 ℚ} (hf : agreeAt i f f') (ha : agreeAt i a a')
    (hif : i < f.b) (hia : i < a.b) :
    optAgreeAt i (AttentionModule.forward σ m f a) (AttentionModule.forward σ m f' a') := by
  unfold AttentionModule.forward
  refine optAgreeAt_bind
    (tmul_optAgreeAt hf (trepeat_agreeAt ha hia 1 m.dim 1 1) hif
      (by show i < a.b * 1; omega)) ?_
  intro z z' hz
  refine optAgreeAt_bind (conv2d_optAgreeAt m.conv1 hz) ?_
  intro z2 z2' hz2
  refine optAgreeAt_bind (conv2d_optAgreeAt m.conv2 (reluT_agreeAt hz2)) ?_
  intro z3 z3' hz3
  refine optAgreeAt_bind (conv2d_optAgreeAt m.conv3 (reluT_agreeAt hz3)) ?_
  intro z4 z4' hz4
  exact pointwise_agreeAt σ hz4

theorem query_forward_agreeAt (m : QueryModule) {i : ℕ}
    {f f' a a' : Ten4 ℚ} (hf : agreeAt i f f') (ha : agreeAt i a a')
    (hif : i < f.b) (hia : i < a.b) :
    optAgreeAt i (QueryModule.forward m f a) (QueryModule.forward m f' a') := by
  unfold QueryModule.forward
  refine optAgreeAt_bind
    (tmul_optAgreeAt hf (trepeat_agreeAt ha hia 1 m.dim 1 1) hif
      (by show i < a.b * 1; omega)) ?_
  intro z z' hz
  refine optAgreeAt_bind (conv2d_optAgreeAt m.conv1 hz) ?_
  intro z2 z2' hz2
  refine optAgreeAt_bind (conv2d_optAgreeAt m.conv2 (reluT_agreeAt hz2)) ?_
  intro z3 z3' hz3
  exact reluT_agreeAt hz3

theorem relate_forward_agreeAt (σ : ℚ → ℚ) (m : RelateModule) {i : ℕ}
    {f f' a a' : Ten4 ℚ} (hf : agreeAt i f f') (ha : agreeAt i a a')
    (hif : i < f.b) (hia : i < a.b) :
    optAgreeAt i (RelateModule.forward σ m f a) (RelateModule.forward σ m f' a') := by
  unfold RelateModule.forward
  refine optAgreeAt_bind
    (tmul_optAgreeAt hf (trepeat_agreeAt ha hia 1 m.dim 1 1) hif
      (by show i < a.b * 1; omega)) ?_
  intro z z' hz
  refine optAgreeAt_bind (conv2d_optAgreeAt m.conv1 hz) ?_
  intro z2 z2' hz2
  refine optAgreeAt_bind (conv2d_optAgreeAt m.conv2 (reluT_agreeAt hz2)) ?_
  intro z3 z3' hz3
  refine optAgreeAt_bind (conv2d_optAgreeAt m.conv3 (reluT_agreeAt hz3)) ?_
  intro z4 z4' hz4
  refine optAgreeAt_bind (conv2d_optAgreeAt m.conv4 (reluT_agreeAt hz4)) ?_
  intro z5 z5' hz5
  refine optAgreeAt_bind (conv2d_optAgreeAt m.conv5 (reluT_agreeAt hz5)) ?_
  intro z6 z6' hz6
  refine optAgreeAt_bind (conv2d_optAgreeAt m.conv6 (reluT_agreeAt hz6)) ?_
  intro z7 z7' hz7
  exact pointwise_agreeAt σ hz7

theorem comparison_forward_agreeAt (m : ComparisonModule) {i : ℕ}
    {x x' y y' : Ten4 ℚ} (hx : agreeAt i x x') (hy : agreeAt i y y') :
    optAgreeAt i (ComparisonModule.forward m x y) (ComparisonModule.forward m x' y') := by
  unfold ComparisonModule.forward
  refine optAgreeAt_bind (cat1_optAgreeAt hx hy) ?_
  intro z z' hz
  refine optAgreeAt_bind (conv2d_optAgreeAt m.projection hz) ?_
  intro z2 z2' hz2
  refine optAgreeAt_bind (conv2d_optAgreeAt m.conv1 (reluT_agreeAt hz2)) ?_
  intro z3 z3' hz3
  refine optAgreeAt_bind (conv2d_optAgreeAt m.conv2 (reluT_agreeAt hz3)) ?_
  intro z4 z4' hz4
  exact reluT_agreeAt hz4

theorem flatten_forward_agreeAt {α : Type} {i : ℕ} {x x' : Ten4 α}
    (h : agreeAt i x x') :
    agreeAt2 i (Flatten.forward x) (Flatten.forward x') := by
  obtain ⟨⟨hb, hc, hh, hw⟩, hd⟩ := h
  unfold Flatten.forward
  refine ⟨hb, by rw [hc, hh, hw], fun j => ?_⟩
  simp only
  rw [← hh, ← hw]
  exact hd _ _ _

theorem indexSelect2_dims {α : Type} {x : Ten4 α} {n : ℕ} {z : Ten4 α}
    (h : indexSelect2 x n = some z) :
    z.b = x.b ∧ z.c = x.c ∧ z.h = 1 ∧ z.w = x.w := by
  unfold indexSelect2 at h
  split at h
  · cases h; exact ⟨rfl, rfl, rfl, rfl⟩
  · cases h

theorem indexSelect3_dims {α : Type} {x : Ten4 α} {n : ℕ} {z : Ten4 α}
    (h : indexSelect3 x n = some z) :
    z.b = x.b ∧ z.c = x.c ∧ z.h = x.h ∧ z.w = 1 := by
  unfold indexSelect3 at h
  split at h
  · cases h; exact ⟨rfl, rfl, rfl, rfl⟩
  · cases h

theorem SameModule.extractRef_dims {f a : Ten4 ℚ} {z : Ten4 ℚ}
    (h : SameModule.extractRef f a = some z) :
    z.b = f.b ∧ z.c = f.c ∧ z.h = 1 ∧ z.w = 1 := by
  unfold SameModule.extractRef at h
  cases hm : maxPool2dIdx a a.h with
  | none => rw [hm] at h; cases h
  | some mi =>
    rw [hm] at h
    simp only [Option.bind] at h
    cases h2 : indexSelect2 f (mi.2.data 0 0 0 0 / a.h) with
    | none => rw [h2] at h; cases h
    | some a1 =>
      rw [h2] at h
      simp only [Option.bind] at h
      obtain ⟨e1, e2, e3, e4⟩ := indexSelect2_dims h2
      obtain ⟨g1, g2, g3, g4⟩ := indexSelect3_dims h
      exact ⟨g1.trans e1, g2.trans e2, g3.trans e3, g4⟩

theorem windowArgmax_swap {a a' : Ten4 ℚ} (haw : a.w = a'.w)
    (had : ∀ c h w, a.data 0 c h w = a'.data 0 c h w) (k : ℕ) :
    windowArgmax a' k 0 0 0 0 = windowArgmax a k 0 0 0 0 := by
  unfold windowArgmax
  rw [← haw]
  have hfe : (fun q => a'.data 0 0 (q / a.w) (q % a.w)) =
      (fun q => a.data 0 0 (q / a.w) (q % a.w)) :=
    funext fun q => (had _ _ _).symm
  rw [hfe]

theorem SameModule.extractRef_agreeAt {i : ℕ} {f f' a a' : Ten4 ℚ}
    (hf : agreeAt i f f') (ha0 : agreeAt 0 a a') :
    optAgreeAt i (SameModule.extractRef f a) (SameModule.extractRef f' a') := by
  obtain ⟨⟨hab, hac, hah, haw⟩, had⟩ := ha0
  unfold SameModule.extractRef maxPool2dIdx
  rw [← hah, ← haw]
  split
  · simp only [Option.bind]
    rw [windowArgmax_swap haw had a.h]
    refine optAgreeAt_bind (indexSelect2_optAgreeAt hf) ?_
    intro z z' hz
    exact indexSelect3_optAgreeAt hz
  · trivial

theorem same_forward_agreeAt (σ : ℚ → ℚ) (m : SameModule) {i : ℕ}
    {f f' a a' : Ten4 ℚ} (hf : agreeAt i f f') (ha : agreeAt i a a')
    (ha0 : agreeAt 0 a a') (hif : i < f.b) :
    optAgreeAt i (SameModule.forward σ m f a) (SameModule.forward σ m f' a') := by
  have hah : a.h = a'.h := ha.1.2.2.1
  unfold SameModule.forward
  rw [← hah]
  refine optAgreeAt_bind2 (SameModule.extractRef_agreeAt hf ha0) ?_
  intro z z' hz he he'
  obtain ⟨hzb, _, _, _⟩ := SameModule.extractRef_dims he
  refine optAgreeAt_bind
    (tmul_optAgreeAt hf (trepeat_agreeAt hz (by omega) 1 1 a.h a.h) hif
      (by show i < z.b * 1; omega)) ?_
  intro x2 x2' hx2
  refine optAgreeAt_bind (cat1_optAgreeAt hx2 ha) ?_
  intro x3 x3' hx3
  refine optAgreeAt_bind (conv2d_optAgreeAt m.conv hx3) ?_
  intro x4 x4' hx4
  exact pointwise_agreeAt σ hx4

/-! ### Claim C1 -/

/-- C1 (amended): for And, Or, Attention, Query, Relate, Compare and
Flatten, the output for batch element `i` depends only on the inputs of
batch element `i` (and the module's parameters): whenever two input
batches have the same shapes and the same data at batch element `i`, the
outputs fail together or agree at batch element `i`.  For Same this holds
only in the weaker form in which the inputs additionally agree at batch
element 0: `SameModule.forward` reads the argmax of batch element 0's
attention and uses it for the whole batch, so batch element `i`'s output
depends on batch elements `i` and 0. -/
theorem C1_batch_isolation :
    (∀ (i : ℕ) (x x' y y' : Ten4 ℚ), agreeAt i x x' → agreeAt i y y' →
      i < x.b → i < y.b →
      optAgreeAt i (AndModule.forward x y) (AndModule.forward x' y')) ∧
    (∀ (i : ℕ) (x x' y y' : Ten4 ℚ), agreeAt i x x' → agreeAt i y y' →
      i < x.b → i < y.b →
      optAgreeAt i (OrModule.forward x y) (OrModule.forward x' y')) ∧
    (∀ (σ : ℚ → ℚ) (m : AttentionModule) (i : ℕ) (f f' a a' : Ten4 ℚ),
      agreeAt i f f' → agreeAt i a a' → i < f.b → i < a.b →
      optAgreeAt i (AttentionModule.forward σ m f a) (AttentionModule.forward σ m f' a')) ∧
    (∀ (m : QueryModule) (i : ℕ) (f f' a a' : Ten4 ℚ),
      agreeAt i f f' → agreeAt i a a' → i < f.b → i < a.b →
      optAgreeAt i (QueryModule.forward m f a) (QueryModule.forward m f' a')) ∧
    (∀ (σ : ℚ → ℚ) (m : RelateModule) (i : ℕ) (f f' a a' : Ten4 ℚ),
      agreeAt i f f' → agreeAt i a a' → i < f.b → i < a.b →
      optAgreeAt i (RelateModule.forward σ m f a) (RelateModule.forward σ m f' a')) ∧
    (∀ (m : ComparisonModule) (i : ℕ) (x x' y y' : Ten4 ℚ),
      agreeAt i x x' → agreeAt i y y' →
      optAgreeAt i (ComparisonModule.forward m x y) (ComparisonModule.forward m x' y')) ∧
    (∀ (i : ℕ) (x x' : Ten4 ℚ), agreeAt i x x' →
      agreeAt2 i (Flatten.forward x) (Flatten.forward x')) ∧
    (∀ (σ : ℚ → ℚ) (m : SameModule) (i : ℕ) (f f' a a' : Ten4 ℚ),
      agreeAt i f f' → agreeAt i a a' → agreeAt 0 a a' → i < f.b →
      optAgreeAt i (SameModule.forward σ m f a) (SameModule.forward σ m f' a')) :=
  ⟨fun _ _ _ _ _ hx hy hix hiy => tmin_optAgreeAt hx hy hix hiy,
   fun _ _ _ _ _ hx hy hix hiy => tmax_optAgreeAt hx hy hix hiy,
   fun σ m _ _ _ _ _ hf ha hif hia => attention_forward_agreeAt σ m hf ha hif hia,
   fun m _ _ _ _ _ hf ha hif hia => query_forward_agreeAt m hf ha hif hia,
   fun σ m _ _ _ _ _ hf ha hif hia => relate_forward_agreeAt σ m hf ha hif hia,
   fun m _ _ _ _ _ hx hy => comparison_forward_agreeAt m hx hy,
   fun _ _ _ hx => flatten_forward_agreeAt hx,
   fun σ m _ _ _ _ _ hf ha ha0 hif => same_forward_agreeAt σ m hf ha ha0 hif⟩

/-- Witness for C1 (amended): the eight conjuncts applied at a concrete
batch and concrete module parameters. -/
theorem C1_batch_isolation_witness :
    let t : Ten4 ℚ := ⟨1, 1, 1, 1, fun _ _ _ _ => 1⟩
    let cv : Conv2dP := ⟨1, 1, 1, 0, 1, fun _ _ _ _ => 1, fun _ => 0⟩
    agreeAt 0 t t ∧ 0 < t.b ∧
    optAgreeAt 0 (AndModule.forward t t) (AndModule.forward t t) ∧
    optAgreeAt 0 (OrModule.forward t t) (OrModule.forward t t) ∧
    optAgreeAt 0 (AttentionModule.forward id ⟨1, cv, cv, cv⟩ t t)
      (AttentionModule.forward id ⟨1, cv, cv, cv⟩ t t) ∧
    optAgreeAt 0 (QueryModule.forward ⟨1, cv, cv⟩ t t)
      (QueryModule.forward ⟨1, cv, cv⟩ t t) ∧
    optAgreeAt 0 (RelateModule.forward id ⟨1, cv, cv, cv, cv, cv, cv⟩ t t)
      (RelateModule.forward id ⟨1, cv, cv, cv, cv, cv, cv⟩ t t) ∧
    optAgreeAt 0 (ComparisonModule.forward ⟨1, cv, cv, cv⟩ t t)
      (ComparisonModule.forward ⟨1, cv, cv, cv⟩ t t) ∧
    agreeAt2 0 (Flatten.forward t) (Flatten.forward t) ∧
    optAgreeAt 0 (SameModule.forward id ⟨1, cv⟩ t t)
      (SameModule.forward id ⟨1, cv⟩ t t) := by
  intro t cv
  have hT : agreeAt 0 t t := agreeAt_refl 0 t
  have hb : 0 < t.b := Nat.one_pos
  exact ⟨hT, hb,
    C1_batch_isolation.1 0 t t t t hT hT hb hb,
    C1_batch_isolation.2.1 0 t t t t hT hT hb hb,
    C1_batch_isolation.2.2.1 id ⟨1, cv, cv, cv⟩ 0 t t t t hT hT hb hb,
    C1_batch_isolation.2.2.2.1 ⟨1, cv, cv⟩ 0 t t t t hT hT hb hb,
    C1_batch_isolation.2.2.2.2.1 id ⟨1, cv, cv, cv, cv, cv, cv⟩ 0 t t t t hT hT hb hb,
    C1_batch_isolation.2.2.2.2.2.1 ⟨1, cv, cv, cv⟩ 0 t t t t hT hT,
    C1_batch_isolation.2.2.2.2.2.2.1 0 t t hT,
    C1_batch_isolation.2.2.2.2.2.2.2 id ⟨1, cv⟩ 0 t t t t hT hT hT hb⟩

/-- Counterexample for C1 as stated: a concrete batch of two where the two
attention inputs agree at batch element 1 and differ only at batch
element 0, yet for every strictly monotone sigmoid the `SameModule`
outputs differ at batch element 1 — batch element 1's output depends on
batch element 0's input. -/
theorem C1_counterexample :
    let feats : Ten4 ℚ := ⟨2, 1, 2, 2, fun b _ i j =>
      if b = 0 then 0
      else if i = 0 then (if j = 0 then 1 else 2) else (if j = 0 then 3 else 4)⟩
    let attn1 : Ten4 ℚ := ⟨2, 1, 2, 2, fun b _ i j =>
      if b = 0 then (if i = 0 ∧ j = 1 then 1 else 0) else 0⟩
    let attn2 : Ten4 ℚ := ⟨2, 1, 2, 2, fun b _ i j =>
      if b = 0 then (if i = 0 ∧ j = 0 then 1 else 0) else 0⟩
    let m : SameModule := ⟨1, ⟨2, 1, 1, 0, 1,
      fun _ ci _ _ => if ci = 0 then 1 else 0, fun _ => 0⟩⟩
    agreeAt 1 feats feats ∧ agreeAt 1 attn1 attn2 ∧
    ¬ (∀ σ : ℚ → ℚ, StrictMono σ →
        optAgreeAt 1 (SameModule.forward σ m feats attn1)
          (SameModule.forward σ m feats attn2)) := by
  intro feats attn1 attn2 m
  refine ⟨agreeAt_refl 1 feats, ⟨⟨rfl, rfl, rfl, rfl⟩, fun c h w => rfl⟩, fun hall => ?_⟩
  have h1 : (SameModule.forward id m feats attn1).map (fun z => z.data 1 0 0 0) = some 2 := by
    norm_num [SameModule.forward, SameModule.extractRef, maxPool2dIdx, windowArgmax,
      windowIdx, argmaxFrom, argmaxStep, List.range_succ, tmul, ewise, bcompat, bdim, bidx,
      trepeat, cat1, conv2d, convOutDim, padRead, sumR, pointwise, indexSelect2, indexSelect3,
      Option.bind, Option.map]
  have h2 : (SameModule.forward id m feats attn2).map (fun z => z.data 1 0 0 0) = some 1 := by
    norm_num [SameModule.forward, SameModule.extractRef, maxPool2dIdx, windowArgmax,
      windowIdx, argmaxFrom, argmaxStep, List.range_succ, tmul, ewise, bcompat, bdim, bidx,
      trepeat, cat1, conv2d, convOutDim, padRead, sumR, pointwise, indexSelect2, indexSelect3,
      Option.bind, Option.map]
  have h3 := optAgreeAt_entry (hall id strictMono_id) 0 0 0
  rw [h1, h2] at h3
  exact absurd h3 (by simp)

/-! ### Claim C8 -/

/-- C8: AndModule computes the broadcast elementwise minimum and OrModule
the elementwise maximum of its two attention inputs; in particular, at
entries where the first input is 1 and the second 0, And yields 0 and Or
yields 1. -/
theorem C8_and_or_min_max (x y : Ten4 ℚ) (hdims : sameDims4 x y)
    (b c i j : ℕ) (hb : b < x.b) (hc : c < x.c) (hi : i < x.h) (hj : j < x.w) :
    (∃ z, AndModule.forward x y = some z ∧ sameDims4 z x ∧
      z.data b c i j = min (x.data b c i j) (y.data b c i j)) ∧
    (∃ z, OrModule.forward x y = some z ∧ sameDims4 z x ∧
      z.data b c i j = max (x.data b c i j) (y.data b c i j)) ∧
    (x.data b c i j = 1 → y.data b c i j = 0 →
      (∃ z, AndModule.forward x y = some z ∧ z.data b c i j = 0) ∧
      (∃ z, OrModule.forward x y = some z ∧ z.data b c i j = 1)) := by
  obtain ⟨h1, h2, h3, h4⟩ := hdims
  have hcomp : bcompat x.b y.b ∧ bcompat x.c y.c ∧ bcompat x.h y.h ∧ bcompat x.w y.w :=
    ⟨Or.inl h1, Or.inl h2, Or.inl h3, Or.inl h4⟩
  have hand : ∃ z, AndModule.forward x y = some z ∧ sameDims4 z x ∧
      z.data b c i j = min (x.data b c i j) (y.data b c i j) := by
    refine ⟨_, by unfold AndModule.forward tmin ewise; rw [if_pos hcomp], ?_, ?_⟩
    · exact ⟨by simp [bdim, h1], by simp [bdim, h2], by simp [bdim, h3], by simp [bdim, h4]⟩
    · simp only
      rw [bidx_eq hb, bidx_eq hc, bidx_eq hi, bidx_eq hj,
        bidx_eq (h1 ▸ hb), bidx_eq (h2 ▸ hc), bidx_eq (h3 ▸ hi), bidx_eq (h4 ▸ hj)]
  have hor : ∃ z, OrModule.forward x y = some z ∧ sameDims4 z x ∧
      z.data b c i j = max (x.data b c i j) (y.data b c i j) := by
    refine ⟨_, by unfold OrModule.forward tmax ewise; rw [if_pos hcomp], ?_, ?_⟩
    · exact ⟨by simp [bdim, h1], by simp [bdim, h2], by simp [bdim, h3], by simp [bdim, h4]⟩
    · simp only
      rw [bidx_eq hb, bidx_eq hc, bidx_eq hi, bidx_eq hj,
        bidx_eq (h1 ▸ hb), bidx_eq (h2 ▸ hc), bidx_eq (h3 ▸ hi), bidx_eq (h4 ▸ hj)]
  refine ⟨hand, hor, fun hx1 hy0 => ?_⟩
  obtain ⟨z1, hz1, _, hz1d⟩ := hand
  obtain ⟨z2, hz2, _, hz2d⟩ := hor
  exact ⟨⟨z1, hz1, by rw [hz1d, hx1, hy0]; norm_num⟩,
         ⟨z2, hz2, by rw [hz2d, hx1, hy0]; norm_num⟩⟩

/-- Witness for C8: the statement applied to the all-ones and all-zeros
2x2 attention masks. -/
theorem C8_and_or_min_max_witness :
    let x : Ten4 ℚ := ⟨1, 1, 2, 2, fun _ _ _ _ => 1⟩
    let y : Ten4 ℚ := ⟨1, 1, 2, 2, fun _ _ _ _ => 0⟩
    sameDims4 x y ∧
    ((∃ z, AndModule.forward x y = some z ∧ sameDims4 z x ∧
        z.data 0 0 0 0 = min (x.data 0 0 0 0) (y.data 0 0 0 0)) ∧
     (∃ z, OrModule.forward x y = some z ∧ sameDims4 z x ∧
        z.data 0 0 0 0 = max (x.data 0 0 0 0) (y.data 0 0 0 0)) ∧
     (x.data 0 0 0 0 = 1 → y.data 0 0 0 0 = 0 →
       (∃ z, AndModule.forward x y = some z ∧ z.data 0 0 0 0 = 0) ∧
       (∃ z, OrModule.forward x y = some z ∧ z.data 0 0 0 0 = 1))) := by
  intro x y
  exact ⟨⟨rfl, rfl, rfl, rfl⟩,
    C8_and_or_min_max x y ⟨rfl, rfl, rfl, rfl⟩ 0 0 0 0
      (by decide) (by decide) (by decide) (by decide)⟩

/-! ### Claim C2 -/

/-- C2: after construction of `ProgramPrior`, the output layer's weight and
the token-embedding table are the same tensor: an in-place write of any
entry (outside the padding row) through the output layer's reference is
read back unchanged through the embedder's reference, and vice versa. -/
theorem C2_weight_tying (vocabSize inputSize hiddenSize sIdx eIdx pIdx uIdx : ℕ)
    (embedW0 outW0 projW0 : ℕ → ℕ → ℚ) (r c : ℕ) (v : ℚ) (hr : r ≠ pIdx)
    (s : PriorState)
    (hs : s = ProgramPrior.init vocabSize inputSize hiddenSize sIdx eIdx pIdx uIdx
      embedW0 outW0 projW0) :
    readW (writeW s s.outRef r c v) s.embedRef r c = v ∧
    readW (writeW s s.embedRef r c v) s.outRef r c = v := by
  subst hs
  constructor <;> simp [ProgramPrior.init, readW, writeW]

/-- Witness for C2 at a concrete construction, entry (1, 2) and value 7. -/
theorem C2_weight_tying_witness :
    (1 : ℕ) ≠ 0 ∧
    (let s := ProgramPrior.init 5 4 3 1 2 0 3 (fun _ _ => 0) (fun _ _ => 0) (fun _ _ => 0)
     readW (writeW s s.outRef 1 2 7) s.embedRef 1 2 = 7 ∧
     readW (writeW s s.embedRef 1 2 7) s.outRef 1 2 = 7) :=
  ⟨by decide, C2_weight_tying 5 4 3 1 2 0 3 (fun _ _ => 0) (fun _ _ => 0) (fun _ _ => 0)
    1 2 7 (by decide) _ rfl⟩

/-! ### Claim C5 -/

/-- C5 counterexample: after accumulating one evaluation value and reading
perplexity once, the accumulator is empty, and the immediately following
read returns the valid perplexity value 1 (the average of an empty
accumulator is 0 and 2^0 = 1) instead of raising or returning an
error/undefined state. -/
theorem C5_counterexample :
    let s0 := ProgramPrior.init 5 4 3 1 2 0 3 (fun _ _ => 0) (fun _ _ => 0) (fun _ _ => 0)
    let s1 : PriorState := { s0 with acc := s0.acc.record (3 / 2) }
    (ProgramPrior.get_metrics s1).2.acc = ⟨0, 0⟩ ∧
    (ProgramPrior.get_metrics (ProgramPrior.get_metrics s1).2).1 = 1 := by
  intro s0 s1
  constructor
  · rfl
  · norm_num [ProgramPrior.get_metrics, AvgState.getMetric, pow2model]

/-- C5 (amended): reading the perplexity metric resets the running-average
accumulator to empty, and an immediately following read (with no
intervening evaluation-mode forward call) finds the empty accumulator and
returns the default average 0, i.e. the valid perplexity value 2^0 = 1,
rather than raising or returning an error. -/
theorem C5_reset_then_default (s : PriorState) :
    (ProgramPrior.get_metrics s).2.acc = ⟨0, 0⟩ ∧
    (ProgramPrior.get_metrics (ProgramPrior.get_metrics s).2).1 = 1 := by
  constructor
  · rfl
  · norm_num [ProgramPrior.get_metrics, AvgState.getMetric, pow2model]

/-! ### Claim C9 -/

/-- C9: `ProgramPrior.forward` mutates the perplexity accumulator only in
evaluation mode: with `training = true` the returned state is unchanged;
with `training = false` the accumulator gains exactly the batch-mean loss
and every other field of the state is unchanged. -/
theorem C9_forward_frame (s : PriorState) (o : PriorOracle) (tokens : Ten2 ℕ) :
    (ProgramPrior.forward s o true tokens).2 = s ∧
    (ProgramPrior.forward s o false tokens).2.acc =
      s.acc.record (sumR tokens.rows (priorLoss s o tokens) / (tokens.rows : ℚ)) ∧
    (ProgramPrior.forward s o false tokens).2 =
      { s with acc := (ProgramPrior.forward s o false tokens).2.acc } :=
  ⟨rfl, rfl, rfl⟩

/-! ### Claim C6 -/

/-- C6 counterexample: at construction of `AttentionModule(dim = 64)` the
three convolution biases keep torch's default uniform fan-in-bounded
initialization, which is not the zero initializer. -/
theorem C6_counterexample :
    (AttentionModule.initConvs 64).map Conv2dInit.biasInit =
      [InitScheme.uniformBound 576, InitScheme.uniformBound 576, InitScheme.uniformBound 64] ∧
    InitScheme.uniformBound 576 ≠ InitScheme.zeroInit := by
  constructor
  · rfl
  · decide

/-- C6 (amended): at construction of every elementary module with
convolutions (Attention, Query, Relate, Same, Compare), every
convolutional weight is initialized with a fan-in-aware (kaiming /
variance-scaling) scheme — the explicitly listed ones by
`kaiming_normal_`, `ComparisonModule.projection` by the default kaiming
uniform — while every convolutional bias keeps the default uniform
initialization with bound 1/sqrt(fan_in), which is not zero. -/
theorem C6_init_schemes (dim : ℕ) (cv : Conv2dInit)
    (hcv : cv ∈ AttentionModule.initConvs dim ∨ cv ∈ QueryModule.initConvs dim ∨
           cv ∈ RelateModule.initConvs dim ∨ cv ∈ SameModule.initConvs dim ∨
           cv ∈ ComparisonModule.initConvs dim) :
    cv.weightInit.fanInAware = true ∧
    cv.biasInit = InitScheme.uniformBound (cv.inC * cv.k * cv.k) := by
  rcases hcv with h | h | h | h | h <;>
    simp only [AttentionModule.initConvs, QueryModule.initConvs, RelateModule.initConvs,
      SameModule.initConvs, ComparisonModule.initConvs, List.mem_cons,
      List.mem_singleton, List.not_mem_nil, or_false] at h <;>
    rcases h with rfl | h <;> first
      | exact ⟨rfl, rfl⟩
      | (rcases h with rfl | h <;> first
          | exact ⟨rfl, rfl⟩
          | (rcases h with rfl | h <;> first
              | exact ⟨rfl, rfl⟩
              | (rcases h with rfl | h <;> first
                  | exact ⟨rfl, rfl⟩
                  | (rcases h with rfl | rfl <;> exact ⟨rfl, rfl⟩))))

/-- Witness for C6 (amended) at `dim = 2` and the first convolution of
`AttentionModule`. -/
theorem C6_init_schemes_witness :
    (kaimingNormalW (mkConv2d 2 2 3 1 1) ∈ AttentionModule.initConvs 2 ∨
     kaimingNormalW (mkConv2d 2 2 3 1 1) ∈ QueryModule.initConvs 2 ∨
     kaimingNormalW (mkConv2d 2 2 3 1 1) ∈ RelateModule.initConvs 2 ∨
     kaimingNormalW (mkConv2d 2 2 3 1 1) ∈ SameModule.initConvs 2 ∨
     kaimingNormalW (mkConv2d 2 2 3 1 1) ∈ ComparisonModule.initConvs 2) ∧
    ((kaimingNormalW (mkConv2d 2 2 3 1 1)).weightInit.fanInAware = true ∧
     (kaimingNormalW (mkConv2d 2 2 3 1 1)).biasInit =
       InitScheme.uniformBound
         ((kaimingNormalW (mkConv2d 2 2 3 1 1)).inC * (kaimingNormalW (mkConv2d 2 2 3 1 1)).k *
           (kaimingNormalW (mkConv2d 2 2 3 1 1)).k)) :=
  ⟨Or.inl (by decide), C6_init_schemes 2 _ (Or.inl (by decide))⟩

/-! ### Claim C4 -/

/-- C4: after the masking step the sampling distribution assigns exactly
zero mass to the start, padding and unknown indices, at every batch
element and time step; the logits used for the loss are not zeroed — the
unmasked softmax still assigns strictly positive mass to those indices
(they remain admissible loss targets) — and any sample drawn from
positive masked mass is none of them. -/
theorem C4_masking (s : PriorState) (o : PriorOracle) (tokens : Ten2 ℕ)
    (hexp : ∀ q, 0 < o.exp q) (hV : 0 < s.vocabSize) (b j : ℕ) :
    (priorMaskedProbs s o tokens b j s.startIndex = 0 ∧
     priorMaskedProbs s o tokens b j s.padIndex = 0 ∧
     priorMaskedProbs s o tokens b j s.unkIndex = 0) ∧
    (0 < priorProbs s o tokens b j s.startIndex ∧
     0 < priorProbs s o tokens b j s.padIndex ∧
     0 < priorProbs s o tokens b j s.unkIndex) ∧
    (0 < priorMaskedProbs s o tokens b j (priorSamples s o tokens b j) →
      priorSamples s o tokens b j ≠ s.startIndex ∧
      priorSamples s o tokens b j ≠ s.padIndex ∧
      priorSamples s o tokens b j ≠ s.unkIndex) := by
  have hm : ∀ v, v = s.startIndex ∨ v = s.padIndex ∨ v = s.unkIndex →
      priorMaskedProbs s o tokens b j v = 0 := by
    intro v hv
    unfold priorMaskedProbs
    rw [if_pos hv]
  have hp : ∀ v, 0 < priorProbs s o tokens b j v := by
    intro v
    unfold priorProbs softmaxRow
    exact div_pos (hexp _) (sumR_pos hV (fun i _ => hexp _))
  refine ⟨⟨hm _ (Or.inl rfl), hm _ (Or.inr (Or.inl rfl)), hm _ (Or.inr (Or.inr rfl))⟩,
    ⟨hp _, hp _, hp _⟩, fun hpos => ⟨fun he => ?_, fun he => ?_, fun he => ?_⟩⟩
  · rw [he, hm _ (Or.inl rfl)] at hpos
    exact lt_irrefl 0 hpos
  · rw [he, hm _ (Or.inr (Or.inl rfl))] at hpos
    exact lt_irrefl 0 hpos
  · rw [he, hm _ (Or.inr (Or.inr rfl))] at hpos
    exact lt_irrefl 0 hpos

/-- Witness for C4 at a concrete state, oracle, input batch and step. -/
theorem C4_masking_witness :
    let s := ProgramPrior.init 4 2 2 1 2 0 3 (fun _ _ => 0) (fun _ _ => 0) (fun _ _ => 0)
    let o : PriorOracle := ⟨fun _ _ _ _ _ => 0, fun _ => 1, fun _ => 0, fun _ _ _ => 0⟩
    let tokens : Ten2 ℕ := ⟨1, 2, fun _ _ => 2⟩
    (∀ q, 0 < o.exp q) ∧ 0 < s.vocabSize ∧
    ((priorMaskedProbs s o tokens 0 0 s.startIndex = 0 ∧
      priorMaskedProbs s o tokens 0 0 s.padIndex = 0 ∧
      priorMaskedProbs s o tokens 0 0 s.unkIndex = 0) ∧
     (0 < priorProbs s o tokens 0 0 s.startIndex ∧
      0 < priorProbs s o tokens 0 0 s.padIndex ∧
      0 < priorProbs s o tokens 0 0 s.unkIndex) ∧
     (0 < priorMaskedProbs s o tokens 0 0 (priorSamples s o tokens 0 0) →
       priorSamples s o tokens 0 0 ≠ s.startIndex ∧
       priorSamples s o tokens 0 0 ≠ s.padIndex ∧
       priorSamples s o tokens 0 0 ≠ s.unkIndex)) := by
  intro s o tokens
  exact ⟨fun _ => one_pos, by decide,
    C4_masking s o tokens (fun _ => one_pos) (by decide) 0 0⟩

/-! ### Claim C3 -/

/-- Every next-step loss target of the boundary-augmented tokens is a
valid vocabulary index, provided the input tokens, the start index and
the end index are. -/
theorem priorTokens_target_lt (s : PriorState) (tokens : Ten2 ℕ)
    (hV : 0 < s.vocabSize) (hstart : s.startIndex < s.vocabSize)
    (hend : s.endIndex < s.vocabSize)
    (htok : ∀ b2 j2, b2 < tokens.rows → j2 < tokens.cols →
      tokens.data b2 j2 < s.vocabSize)
    (b : ℕ) (hb : b < tokens.rows) (j : ℕ) (hj : 1 ≤ j) :
    (priorTokens s tokens).data b j < s.vocabSize := by
  unfold priorTokens addBoundary
  simp only
  split
  · exact hend
  · split
    · exact hstart
    · split
      · next hcond => exact htok b (j - 1) hb (by omega)
      · exact hV

/-- C3 (amended): for every input of shape (B, L) with valid vocabulary
indices, forward returns a per-sequence loss of length B with every entry
non-negative and a predictions tensor of shape (B, L+1) — one less than
the boundary-augmented length L+2 — under the characterizing assumptions
on the transcendental exp and log. -/
theorem C3_shapes_and_loss (s : PriorState) (o : PriorOracle) (training : Bool)
    (tokens : Ten2 ℕ)
    (hexp : ∀ q, 0 < o.exp q)
    (hlog : ∀ q, 0 < q → q ≤ 1 → o.log q ≤ 0)
    (hV : 0 < s.vocabSize)
    (hstart : s.startIndex < s.vocabSize) (hend : s.endIndex < s.vocabSize)
    (htok : ∀ b2 j2, b2 < tokens.rows → j2 < tokens.cols →
      tokens.data b2 j2 < s.vocabSize)
    (b : ℕ) (hb : b < tokens.rows) :
    (ProgramPrior.forward s o training tokens).1.2.len = tokens.rows ∧
    (ProgramPrior.forward s o training tokens).1.1.rows = tokens.rows ∧
    (ProgramPrior.forward s o training tokens).1.1.cols = tokens.cols + 1 ∧
    0 ≤ (ProgramPrior.forward s o training tokens).1.2.data b := by
  refine ⟨rfl, rfl, rfl, ?_⟩
  show 0 ≤ priorLoss s o tokens b
  unfold priorLoss
  apply div_nonneg
  · apply sumR_nonneg
    intro j hj
    apply mul_nonneg (Nat.cast_nonneg _)
    apply neg_nonneg.mpr
    unfold logSoftmaxRow
    apply hlog
    · unfold softmaxRow
      exact div_pos (hexp _) (sumR_pos hV (fun i _ => hexp _))
    · unfold softmaxRow
      rw [div_le_one (sumR_pos hV (fun i _ => hexp _))]
      exact le_sumR
        (priorTokens_target_lt s tokens hV hstart hend htok b hb (j + 1) (by omega))
        (fun i _ => le_of_lt (hexp _))
  · exact add_nonneg (sumR_nonneg (fun i _ => Nat.cast_nonneg _)) (by norm_num)

/-- Witness for C3 (amended) at a concrete state, oracle and batch. -/
theorem C3_shapes_and_loss_witness :
    let s := ProgramPrior.init 5 2 2 1 2 0 3 (fun _ _ => 0) (fun _ _ => 0) (fun _ _ => 0)
    let o : PriorOracle := ⟨fun _ _ _ _ _ => 0, fun _ => 1, fun _ => 0, fun _ _ _ => 0⟩
    let tokens : Ten2 ℕ := ⟨1, 2, fun _ _ => 4⟩
    (∀ q, 0 < o.exp q) ∧ (∀ q, 0 < q → q ≤ 1 → o.log q ≤ 0) ∧
    0 < s.vocabSize ∧ s.startIndex < s.vocabSize ∧ s.endIndex < s.vocabSize ∧
    (∀ b2 j2, b2 < tokens.rows → j2 < tokens.cols →
      tokens.data b2 j2 < s.vocabSize) ∧ 0 < tokens.rows ∧
    ((ProgramPrior.forward s o true tokens).1.2.len = tokens.rows ∧
     (ProgramPrior.forward s o true tokens).1.1.rows = tokens.rows ∧
     (ProgramPrior.forward s o true tokens).1.1.cols = tokens.cols + 1 ∧
     0 ≤ (ProgramPrior.forward s o true tokens).1.2.data 0) := by
  intro s o tokens
  exact ⟨fun _ => one_pos, fun _ _ _ => le_refl 0, by decide, by decide, by decide,
    fun _ _ _ _ => (by decide : (4 : ℕ) < 5), by decide,
    C3_shapes_and_loss s o true tokens (fun _ => one_pos) (fun _ _ _ => le_refl 0)
      (by decide) (by decide) (by decide) (fun _ _ _ _ => (by decide : (4 : ℕ) < 5)) 0
      (by decide)⟩

/-- C3 counterexample: for a concrete batch of one program of input length
L = 2, the predictions tensor has L + 1 = 3 columns, not L - 1 = 1 as
claimed. -/
theorem C3_counterexample :
    let s := ProgramPrior.init 5 2 2 1 2 0 3 (fun _ _ => 0) (fun _ _ => 0) (fun _ _ => 0)
    let o : PriorOracle := ⟨fun _ _ _ _ _ => 0, fun _ => 1, fun _ => 0, fun _ _ _ => 0⟩
    let tokens : Ten2 ℕ := ⟨1, 2, fun _ _ => 4⟩
    (ProgramPrior.forward s o true tokens).1.1.cols = 3 ∧ (3 : ℕ) ≠ 2 - 1 := by
  intro s o tokens
  exact ⟨rfl, by decide⟩

/-! ### Claim C7 -/

/-- The first-maximum fold returns the position of a strict maximum: if
`p` is the start or a member of the list, and every other candidate is
strictly below `p`, the fold ends at `p`. -/
theorem argmaxFrom_eq_of_strict (f : ℕ → ℚ) (l : List ℕ) :
    ∀ s p, (p = s ∨ p ∈ l) → (s = p ∨ f s < f p) → (∀ q ∈ l, q = p ∨ f q < f p) →
      argmaxFrom f l s = p := by
  induction l with
  | nil =>
    intro s p hp _ _
    rcases hp with rfl | h
    · rfl
    · cases h
  | cons a t ih =>
    intro s p hp hs hl
    have ha := hl a (List.mem_cons_self a t)
    have hl' : ∀ q ∈ t, q = p ∨ f q < f p := fun q hq => hl q (List.mem_cons_of_mem a hq)
    unfold argmaxFrom at ih ⊢
    simp only [List.foldl_cons]
    unfold argmaxStep
    split
    · next hlt =>
      apply ih
      · rcases ha with rfl | hfa
        · exact Or.inl rfl
        · rcases hp with rfl | hmem
          · exact absurd (lt_trans hlt hfa) (lt_irrefl _)
          · rcases List.mem_cons.mp hmem with rfl | hmem2
            · exact absurd hfa (lt_irrefl _)
            · exact Or.inr hmem2
      · rcases ha with rfl | hfa
        · exact Or.inl rfl
        · exact Or.inr hfa
      · exact hl'
    · next hnlt =>
      apply ih
      · rcases hp with rfl | hmem
        · exact Or.inl rfl
        · rcases List.mem_cons.mp hmem with rfl | hmem2
          · rcases hs with rfl | hfs
            · exact Or.inl rfl
            · exact absurd hfs hnlt
          · exact Or.inr hmem2
      · exact hs
      · exact hl'

/-- When the batch-0 channel-0 slice of `a` has its unique strict maximum
at `(r, c)` and the spatial dimensions are square, the first window's
argmax is the flattened index `r * a.w + c`. -/
theorem windowArgmax_of_unique (a : Ten4 ℚ) (r c : ℕ)
    (hsq : a.h = a.w) (hr : r < a.h) (hc : c < a.w)
    (hmax : ∀ i < a.h, ∀ j < a.w, ¬(i = r ∧ j = c) →
      a.data 0 0 i j < a.data 0 0 r c) :
    windowArgmax a a.h 0 0 0 0 = r * a.w + c := by
  have hw0 : 0 < a.w := lt_of_le_of_lt (Nat.zero_le c) hc
  have hdiv : (r * a.w + c) / a.w = r := by
    rw [mul_comm, Nat.mul_add_div hw0, Nat.div_eq_of_lt hc, add_zero]
  have hmod : (r * a.w + c) % a.w = c := by
    rw [mul_comm, Nat.mul_add_mod, Nat.mod_eq_of_lt hc]
  have hpmem : r * a.w + c ∈ windowIdx a.w a.h 0 0 := by
    unfold windowIdx
    simp only [List.mem_flatMap, List.mem_map, List.mem_range]
    exact ⟨r, hr, c, by omega, by ring⟩
  have char : ∀ q ∈ windowIdx a.w a.h 0 0, q = r * a.w + c ∨
      a.data 0 0 (q / a.w) (q % a.w) <
        a.data 0 0 ((r * a.w + c) / a.w) ((r * a.w + c) % a.w) := by
    intro q hq
    unfold windowIdx at hq
    simp only [List.mem_flatMap, List.mem_map, List.mem_range] at hq
    obtain ⟨r2, hr2, c2, hc2, rfl⟩ := hq
    rw [hdiv, hmod]
    have hq2 : (0 * a.h + r2) * a.w + (0 * a.h + c2) = r2 * a.w + c2 := by ring
    rw [hq2]
    by_cases heq : r2 = r ∧ c2 = c
    · left
      rw [heq.1, heq.2]
    · right
      have hd2 : (r2 * a.w + c2) / a.w = r2 := by
        rw [mul_comm, Nat.mul_add_div hw0, Nat.div_eq_of_lt (by omega), add_zero]
      have hm2 : (r2 * a.w + c2) % a.w = c2 := by
        rw [mul_comm, Nat.mul_add_mod, Nat.mod_eq_of_lt (by omega)]
      rw [hd2, hm2]
      exact hmax r2 hr2 c2 (by omega) heq
  unfold windowArgmax
  cases hL : windowIdx a.w a.h 0 0 with
  | nil =>
    rw [hL] at hpmem
    cases hpmem
  | cons q rest =>
    apply argmaxFrom_eq_of_strict
    · rw [hL] at hpmem
      rcases List.mem_cons.mp hpmem with h | h
      · exact Or.inl h
      · exact Or.inr h
    · rcases char q (hL ▸ List.mem_cons_self q rest) with h | h
      · exact Or.inl h
      · exact Or.inr h
    · intro q2 hq2
      exact char q2 (hL ▸ List.mem_cons_of_mem q hq2)

/-- C7 (amended): when the spatial dimensions are square and the batch-0
slice of `attn` carries its unique maximal entry at `(r, c)`, the
reference feature extracted by `SameModule.forward` is exactly
`feats[:, :, r, c]` for every batch element, and so is every spatial
position of its tiled broadcast. -/
theorem C7_same_reference (f a : Ten4 ℚ) (r c : ℕ)
    (hsq : a.h = a.w) (hfh : f.h = a.h) (hfw : f.w = a.w)
    (hr : r < a.h) (hc : c < a.w)
    (hmax : ∀ i < a.h, ∀ j < a.w, ¬(i = r ∧ j = c) →
      a.data 0 0 i j < a.data 0 0 r c) :
    ∃ m, SameModule.extractRef f a = some m ∧
      m.b = f.b ∧ m.c = f.c ∧ m.h = 1 ∧ m.w = 1 ∧
      (∀ b2 ch, m.data b2 ch 0 0 = f.data b2 ch r c) ∧
      (∀ b2 ch i j, b2 < f.b → ch < f.c →
        (trepeat m 1 1 a.h a.h).data b2 ch i j = f.data b2 ch r c) := by
  have hh0 : 0 < a.h := lt_of_le_of_lt (Nat.zero_le r) hr
  have e2 : (r * a.w + c) / a.h = r := by
    rw [hsq, mul_comm, Nat.mul_add_div (hsq ▸ hh0), Nat.div_eq_of_lt hc, add_zero]
  have e3 : (r * a.w + c) % a.h = c := by
    rw [hsq, mul_comm, Nat.mul_add_mod, Nat.mod_eq_of_lt hc]
  unfold SameModule.extractRef maxPool2dIdx
  rw [if_pos ⟨hh0, le_refl a.h, by omega⟩]
  simp only [Option.bind]
  rw [windowArgmax_of_unique a r c hsq hr hc hmax, e2, e3]
  unfold indexSelect2
  rw [if_pos (show r < f.h by omega)]
  simp only [Option.bind]
  unfold indexSelect3
  rw [if_pos (show c < f.w by omega)]
  refine ⟨_, rfl, rfl, rfl, rfl, rfl, fun b2 ch => rfl, fun b2 ch i j hb2 hch => ?_⟩
  unfold trepeat
  simp only
  rw [Nat.mod_eq_of_lt hb2, Nat.mod_eq_of_lt hch]

/-- Witness for C7 (amended): a concrete 2-batch input whose batch-0
attention slice has its unique maximum at (0, 1); the extracted reference
is `feats[:, :, 0, 1]` for both batch elements. -/
theorem C7_same_reference_witness :
    let f : Ten4 ℚ := ⟨2, 1, 2, 2, fun b _ i j =>
      if b = 0 then (if i = 0 then (if j = 0 then 5 else 6) else (if j = 0 then 7 else 8))
      else (if i = 0 then (if j = 0 then 1 else 2) else (if j = 0 then 3 else 4))⟩
    let a : Ten4 ℚ := ⟨2, 1, 2, 2, fun b _ i j =>
      if b = 0 ∧ i = 0 ∧ j = 1 then 1 else 0⟩
    (a.h = a.w ∧ f.h = a.h ∧ f.w = a.w ∧ 0 < a.h ∧ 1 < a.w ∧
     (∀ i < a.h, ∀ j < a.w, ¬(i = 0 ∧ j = 1) → a.data 0 0 i j < a.data 0 0 0 1)) ∧
    (∃ m, SameModule.extractRef f a = some m ∧
      m.b = f.b ∧ m.c = f.c ∧ m.h = 1 ∧ m.w = 1 ∧
      (∀ b2 ch, m.data b2 ch 0 0 = f.data b2 ch 0 1) ∧
      (∀ b2 ch i j, b2 < f.b → ch < f.c →
        (trepeat m 1 1 a.h a.h).data b2 ch i j = f.data b2 ch 0 1)) := by
  intro f a
  exact ⟨⟨rfl, rfl, rfl, by decide, by decide, by decide⟩,
    C7_same_reference f a 0 1 rfl rfl rfl (by decide) (by decide) (by decide)⟩

/-- C7 counterexample: a concrete 2-batch square input whose unique
maximal attention entry sits in batch element 1 at position (1, 1); the
extraction nevertheless uses the argmax of batch element 0, and the
extracted reference at batch element 1 differs from `feats[:, :, 1, 1]`. -/
theorem C7_counterexample :
    let f : Ten4 ℚ := ⟨2, 1, 2, 2, fun b _ i j =>
      if b = 0 then 0
      else (if i = 0 then (if j = 0 then 10 else 20) else (if j = 0 then 30 else 40))⟩
    let a : Ten4 ℚ := ⟨2, 1, 2, 2, fun b _ i j =>
      if b = 0 then (if i = 0 ∧ j = 0 then 1 else 0)
      else (if i = 1 ∧ j = 1 then 5 else 0)⟩
    (∀ b2 < 2, ∀ i < 2, ∀ j < 2, ¬(b2 = 1 ∧ i = 1 ∧ j = 1) →
      a.data b2 0 i j < a.data 1 0 1 1) ∧
    (SameModule.extractRef f a).map (fun m => m.data 1 0 0 0) ≠ some (f.data 1 0 1 1) := by
  intro f a
  constructor
  · decide
  · decide

/-! ### Claim C10 -/

/-- C10 (amended): `SameModule.forward` fails (shape error) on every input
whose spatial dimensions satisfy H >= 2 and H != W: for W < H the pooling
kernel (of size H) does not fit, and for W > H the tiled H x H reference
block cannot be broadcast against the H x W feature map. -/
theorem C10_nonsquare_fails (σ : ℚ → ℚ) (m : SameModule) (f a : Ten4 ℚ)
    (hfh : f.h = a.h) (hfw : f.w = a.w) (h2 : 2 ≤ a.h) (hne : a.h ≠ a.w) :
    SameModule.forward σ m f a = none := by
  unfold SameModule.forward
  rcases Nat.lt_or_ge a.w a.h with hlt | hge
  · have hnone : SameModule.extractRef f a = none := by
      unfold SameModule.extractRef maxPool2dIdx
      rw [if_neg (by omega)]
      rfl
    rw [hnone]
    rfl
  · have hgt : a.h < a.w := by omega
    cases he : SameModule.extractRef f a with
    | none => rfl
    | some z =>
      obtain ⟨hzb, hzc, hzh, hzw⟩ := SameModule.extractRef_dims he
      simp only [Option.bind]
      have ht : tmul f (trepeat z 1 1 a.h a.h) = none := by
        unfold tmul ewise
        apply if_neg
        rintro ⟨-, -, -, hcw⟩
        unfold bcompat at hcw
        unfold trepeat at hcw
        simp only at hcw
        rw [hzw, one_mul] at hcw
        omega
      rw [ht]

/-- Witness for C10 (amended) at a concrete 2 x 3 input. -/
theorem C10_nonsquare_fails_witness :
    let f : Ten4 ℚ := ⟨1, 1, 2, 3, fun _ _ _ _ => 1⟩
    let a : Ten4 ℚ := ⟨1, 1, 2, 3, fun _ _ _ _ => 0⟩
    let m : SameModule := ⟨1, ⟨2, 1, 1, 0, 1, fun _ _ _ _ => 1, fun _ => 0⟩⟩
    (f.h = a.h ∧ f.w = a.w ∧ 2 ≤ a.h ∧ a.h ≠ a.w) ∧
    SameModule.forward id m f a = none := by
  intro f a m
  exact ⟨⟨rfl, rfl, by decide, by decide⟩,
    C10_nonsquare_fails id m f a rfl rfl (by decide) (by decide)⟩

/-- C10 counterexample: with H = 1 and W = 2 (non-square spatial
dimensions) the forward neither fails nor produces a shape-inconsistent
result: it returns an attention mask of the same (batch, 1, H, W) shape
as its input attention. -/
theorem C10_counterexample :
    let f : Ten4 ℚ := ⟨1, 1, 1, 2, fun _ _ _ j => if j = 0 then 3 else 4⟩
    let a : Ten4 ℚ := ⟨1, 1, 1, 2, fun _ _ _ j => if j = 0 then 1 else 0⟩
    let m : SameModule := ⟨1, ⟨2, 1, 1, 0, 1, fun _ _ _ _ => 1, fun _ => 0⟩⟩
    a.h ≠ a.w ∧
    (SameModule.forward id m f a).map (fun z => (z.b, z.c, z.h, z.w)) =
      some (1, 1, 1, 2) := by
  intro f a m
  constructor
  · decide
  · norm_num [SameModule.forward, SameModule.extractRef, maxPool2dIdx, windowArgmax,
      windowIdx, argmaxFrom, argmaxStep, List.range_succ, tmul, ewise, bcompat, bdim, bidx,
      trepeat, cat1, conv2d, convOutDim, padRead, sumR, pointwise, indexSelect2,
      indexSelect3, Option.bind, Option.map]

end Probnmn
